import Mathlib

set_option maxRecDepth 100000
set_option linter.unusedVariables false

/-!
Verification of the chess-game streaming parser (`src/main.py`, `src/chess_parser.py`).

The embedding models Python strings as `List Char`, Python `int`/`float` values as
`ℤ`/`ℚ` (decimal literals are exact in `ℚ`; the inputs considered never exercise binary
floating-point rounding), and a raised Python exception (`ValueError`, `IndexError`,
`TypeError`) as `Option.none` propagated through the `Option` monad.
-/

/-- Conversion of a Lean string literal to the character-list representation used
throughout the development. -/
def str (s : String) : List Char := s.toList

/-- Whitespace predicate of Python `str`: the set matched by `str.isspace`, by
`str.strip()` and by the regex class `\s` on `str` (ASCII whitespace plus the
Unicode whitespace code points). -/
def pyIsSpace (c : Char) : Bool :=
  let n := c.toNat
  n == 32 || (9 ≤ n && n ≤ 13) || (28 ≤ n && n ≤ 31) || n == 0x85 || n == 0xA0 ||
  n == 0x1680 || (0x2000 ≤ n && n ≤ 0x200A) || n == 0x2028 || n == 0x2029 ||
  n == 0x202F || n == 0x205F || n == 0x3000

/-- Digit predicate used for the regex class `\d` and for `int()` / `float()` digits.
Python additionally accepts non-ASCII Unicode decimal digits; those never occur in the
inputs considered here and are not modelled. -/
def pyIsDigit (c : Char) : Bool := '0' ≤ c && c ≤ '9'

/-- Python `text.split(sep)` for a one-character separator: splits at every occurrence,
never collapses, and yields `[""]` on the empty string. -/
def pySplit (sep : Char) : List Char → List (List Char)
  | [] => [[]]
  | c :: rest =>
    match pySplit sep rest with
    | [] => [[c]]
    | g :: gs => if c = sep then [] :: g :: gs else (c :: g) :: gs

/-- Python `text.strip()`: removes leading and trailing Python whitespace. -/
def pyStrip (cs : List Char) : List Char :=
  ((cs.dropWhile pyIsSpace).reverse.dropWhile pyIsSpace).reverse

/-- Value of a non-empty all-digit character list. -/
def digitsVal : List Char → Nat → Nat
  | [], acc => acc
  | c :: rest, acc => digitsVal rest (acc * 10 + (c.toNat - '0'.toNat))

/-- Digit-string parser: `some` of the value when the list is non-empty and all ASCII
digits, otherwise `none`. -/
def digitsToNat (cs : List Char) : Option Nat :=
  if cs ≠ [] ∧ cs.all pyIsDigit then some (digitsVal cs 0) else none

/-- Python `int(text)`: strips whitespace, accepts an optional sign followed by a
non-empty digit string, raises `ValueError` (modelled as `none`) otherwise.
Underscore digit separators, accepted by Python between digits, never occur in the
inputs considered and are not modelled. -/
def pyInt (cs : List Char) : Option ℤ :=
  match pyStrip cs with
  | '-' :: d => (digitsToNat d).map (fun n => -(n : ℤ))
  | '+' :: d => (digitsToNat d).map (fun n => (n : ℤ))
  | d => (digitsToNat d).map (fun n => (n : ℤ))

/-- Value of a decimal body `intpart[.fracpart]` where at least one part is non-empty. -/
def decimalBody (cs : List Char) : Option ℚ :=
  let ip := cs.takeWhile pyIsDigit
  match cs.drop ip.length with
  | [] => if ip ≠ [] then some ((digitsVal ip 0 : ℤ) : ℚ) else none
  | '.' :: fr =>
    if (ip ≠ [] ∨ fr ≠ []) ∧ fr.all pyIsDigit then
      some (((digitsVal ip 0 : ℤ) : ℚ) + (digitsVal fr 0 : ℚ) / ((10 : ℚ) ^ fr.length))
    else none
  | _ => none

/-- Python `float(text)` restricted to plain decimal notation: optional sign, digits,
optional fractional part; `none` models a raised `ValueError`. Exponent notation and
the `inf`/`nan` spellings accepted by Python never occur in the inputs considered and
are not modelled; the value is exact (`ℚ`) rather than rounded to binary64. -/
def pyFloat (cs : List Char) : Option ℚ :=
  match pyStrip cs with
  | '-' :: body => (decimalBody body).map (fun q => -q)
  | '+' :: body => decimalBody body
  | body => decimalBody body

/-- Prefix test on character lists (Python `str.startswith`). -/
def startsWithL (p cs : List Char) : Bool := List.isPrefixOf p cs

/-- Substring test on character lists (Python `needle in haystack`). -/
def containsSub (needle : List Char) : List Char → Bool
  | [] => startsWithL needle []
  | c :: rest => startsWithL needle (c :: rest) || containsSub needle rest

/-- Translation of `clock_to_seconds` (identical in `src/main.py` lines 18-25 and
`src/chess_parser.py` lines 31-39): split on `:`, two parts are MM:SS, three parts are
HH:MM:SS, any other number of parts yields 0; a non-integer part in the 2- or 3-part
case raises `ValueError` (`none`). -/
def clock_to_seconds (cs : List Char) : Option ℤ :=
  match pySplit ':' cs with
  | [p0, p1] => do
    let m ← pyInt p0
    let s ← pyInt p1
    pure (m * 60 + s)
  | [p0, p1, p2] => do
    let h ← pyInt p0
    let m ← pyInt p1
    let s ← pyInt p2
    pure (h * 3600 + m * 60 + s)
  | _ => some 0

/-- Translation of `ChessParser.parse_eval` (`src/chess_parser.py` lines 41-46):
a leading `#` denotes mate, `#-` gives -10.0 and any other `#` string gives 10.0;
otherwise the string is parsed as a float (`none` models the `ValueError`).
`src/main.py` lines 81-88 inline the identical logic. -/
def parse_eval (cs : List Char) : Option ℚ :=
  if startsWithL (str "#") cs then
    some (if startsWithL (str "#-") cs then -10 else 10)
  else pyFloat cs

/-- Translation of `ChessParser.parse_time_control` (`src/chess_parser.py` lines 48-52)
and of the inline split in `src/main.py` lines 36-39: split on `+` and convert the
first two parts with `int()`; a single part raises `IndexError` and a non-integer part
raises `ValueError` (both `none`). -/
def parse_time_control (cs : List Char) : Option (ℤ × ℤ) :=
  match pySplit '+' cs with
  | p0 :: p1 :: _ => do
    let a ← pyInt p0
    let b ← pyInt p1
    pure (a, b)
  | _ => none

attribute [local semireducible] Rat.add Rat.sub Rat.mul Rat.inv Rat.ofScientific

/-- Result of one match of `MOVE_PATTERN` (`src/chess_parser.py` lines 22-25,
`src/main.py` lines 13-16): the seven capture groups, in order. -/
structure MoveMatch where
  moveNum : List Char
  whiteMove : List Char
  whiteEval : List Char
  whiteClock : List Char
  blackMove : List Char
  blackEval : List Char
  blackClock : List Char
deriving DecidableEq, Repr

/-- Characters strictly before the first occurrence of `stop`, together with the
suffix strictly after that occurrence; `none` when `stop` does not occur. -/
def splitFirst (stop : Char) : List Char → Option (List Char × List Char)
  | [] => none
  | c :: rest =>
    if c = stop then some ([], rest)
    else (splitFirst stop rest).map (fun p => (c :: p.1, p.2))

/-- Literal-prefix matcher: consumes `lit` or fails. -/
def expectL (lit cs : List Char) : Option (List Char) :=
  if startsWithL lit cs then some (cs.drop lit.length) else none

/-- Matcher for the regex fragment `\s*\[%<tag>\s*([^\]]*)\]`: optional whitespace, the
literal bracket tag, then the capture group, which (because the `\s*` inside the bracket
is greedy and whitespace never contains `]`) is the text up to the first `]` stripped of
its leading whitespace. Returns the group and the suffix after the `]`. -/
def annPart (tag cs : List Char) : Option (List Char × List Char) := do
  let cs1 ← expectL tag (cs.dropWhile pyIsSpace)
  let (seg, rest) ← splitFirst ']' cs1
  pure (seg.dropWhile pyIsSpace, rest)

/-- Matcher for the regex fragment `\s*\}`: optional whitespace then a closing brace. -/
def braceClose (cs : List Char) : Option (List Char) :=
  match cs.dropWhile pyIsSpace with
  | c :: rest => if c = '}' then some rest else none
  | [] => none

/-- Anchored match of `MOVE_PATTERN` at the start of `cs`, returning the seven capture
groups and the suffix after the match. The pattern is
`(\d+)\.\s*([^\{]+)\s*\{\s*\[%eval\s*([^\]]*)\]\s*\[%clk\s*([^\]]*)\]\s*\}\s*`
`([^\{]*)\s*\{\s*\[%eval\s*([^\]]*)\]\s*\[%clk\s*([^\]]*)\]\s*\}`.
Backtracking is deterministic here: every capture class excludes its closing delimiter,
so `(\d+)` takes the maximal digit run, `([^\{]+)`/`([^\{]*)` reach exactly the next
`{`, and the greedy `\s*` before each `[^...]` capture takes the maximal whitespace run
compatible with the capture's minimal length, leaving the group equal to the
delimiter-bounded segment minus leading whitespace (minus all but one character when the
group is the non-empty `([^\{]+)` and the segment is all whitespace). -/
def matchAt (cs : List Char) : Option (MoveMatch × List Char) :=
  let ds := cs.takeWhile pyIsDigit
  if ds = [] then none else
  match cs.drop ds.length with
  | '.' :: r2 => do
    let (run, r3) ← splitFirst '{' r2
    if run = [] then none else do
    let k := (run.takeWhile pyIsSpace).length
    let wm := run.drop (min k (run.length - 1))
    let (we, r5) ← annPart (str "[%eval") r3
    let (wc, r6) ← annPart (str "[%clk") r5
    let r7 ← braceClose r6
    let (run2, r9) ← splitFirst '{' r7
    let bm := run2.dropWhile pyIsSpace
    let (be, r10) ← annPart (str "[%eval") r9
    let (bc, r11) ← annPart (str "[%clk") r10
    let r12 ← braceClose r11
    pure (⟨ds, wm, we, wc, bm, be, bc⟩, r12)
  | _ => none

/-- Fuel-indexed scan loop of `re.finditer`: try an anchored match at the current
position; on success continue after the match, on failure advance one character. -/
def findAllGo : Nat → List Char → List MoveMatch
  | 0, _ => []
  | fuel + 1, cs =>
    match matchAt cs with
    | some (m, rest) => m :: findAllGo fuel rest
    | none =>
      match cs with
      | [] => []
      | _ :: t => findAllGo fuel t

/-- Translation of `MOVE_PATTERN.finditer(move_line)`: all non-overlapping matches of
the move pattern, scanning left to right. A successful anchored match always consumes
at least two characters, so `length + 1` fuel suffices. -/
def findAll (cs : List Char) : List MoveMatch := findAllGo (cs.length + 1) cs

/-- Output row appended to `csv_buffer`: `[move label, eval, centipawn loss, time left,
time spent]`. -/
structure Row where
  label : List Char
  evalq : ℚ
  loss : ℚ
  timeLeft : ℤ
  timeSpent : ℤ
deriving DecidableEq, Repr

/-- Retained keys of the `game_metadata` dict / `GameState.metadata`: the driver
(`src/main.py` lines 176-193) stores only `TimeControl`, `WhiteElo` and `BlackElo`;
`none` models an absent key. -/
structure GameMeta where
  timeControl : Option (List Char)
  whiteElo : Option ℤ
  blackElo : Option ℤ
deriving DecidableEq, Repr

/-- Translation of the dataclass `GameState` (`src/chess_parser.py` lines 7-16). -/
structure GameState where
  moves : List (List Char)
  metadata : GameMeta
  has_clk_eval : Bool
  reject : Bool
  prev_white_clock : Option ℤ
  prev_black_clock : Option ℤ
  prev_eval : ℚ
deriving DecidableEq, Repr

/-- Body of the `for match in matches` loop of `ChessParser.process_moves`
(`src/chess_parser.py` lines 65-100): emit the white row, then the black row when the
black-move capture group is non-empty, updating `prev_eval`, `prev_black_clock` and
`prev_white_clock` in source order. -/
def processMatchC (initial_time increment : ℤ) (sb : GameState × List Row)
    (m : MoveMatch) : Option (GameState × List Row) := do
  let st := sb.1
  let white_clock_secs ← clock_to_seconds m.whiteClock
  let white_time_spent :=
    (match st.prev_white_clock with
      | none => initial_time - white_clock_secs
      | some p => p - white_clock_secs) + increment
  let white_eval_float ← parse_eval m.whiteEval
  let buf1 := sb.2 ++
    [⟨m.moveNum ++ str "w", white_eval_float, max 0 (st.prev_eval - white_eval_float),
      white_clock_secs, white_time_spent⟩]
  let st1 := {st with prev_eval := white_eval_float}
  if m.blackMove ≠ [] then do
    let black_clock_secs ← clock_to_seconds m.blackClock
    let black_time_spent :=
      (match st1.prev_black_clock with
        | none => initial_time - black_clock_secs
        | some p => p - black_clock_secs) + increment
    let black_eval_float ← parse_eval m.blackEval
    let buf2 := buf1 ++
      [⟨m.moveNum ++ str "b", black_eval_float, max 0 (black_eval_float - st1.prev_eval),
        black_clock_secs, black_time_spent⟩]
    pure ({st1 with prev_eval := black_eval_float,
                    prev_black_clock := some black_clock_secs,
                    prev_white_clock := some white_clock_secs}, buf2)
  else
    pure ({st1 with prev_white_clock := some white_clock_secs}, buf1)

/-- Body of the `for move_line in state.moves` loop of `ChessParser.process_moves`:
all matches of the move pattern in one line, folded through the match loop. -/
def processMovesLineC (initial_time increment : ℤ) (sb : GameState × List Row)
    (move_line : List Char) : Option (GameState × List Row) :=
  List.foldlM (processMatchC initial_time increment) sb (findAll move_line)

/-- Translation of `ChessParser.process_moves` (`src/chess_parser.py` lines 54-100).
Returns the final game state and the grown CSV buffer; `none` models an uncaught
exception. The early return fires when `moves` is empty, `has_clk_eval` is false or
`reject` is set; otherwise the time control is parsed from the metadata with default
`"0+0"` and every move line is processed. The `min_elo` parameter is declared by the
source but never read in the body. -/
def process_moves (state : GameState) (csv_buffer : List Row) (min_elo : ℤ) :
    Option (GameState × List Row) :=
  if state.moves = [] ∨ state.has_clk_eval = false ∨ state.reject = true then
    some (state, csv_buffer)
  else do
    let tc ← parse_time_control (state.metadata.timeControl.getD (str "0+0"))
    List.foldlM (processMovesLineC tc.1 tc.2) (state, csv_buffer) state.moves

/-- Python `line.split('"')[1]`: the text between the first and second double quote;
`none` models the `IndexError` raised when the line holds fewer than two quotes. -/
def quotedField (line : List Char) : Option (List Char) :=
  match pySplit '"' line with
  | _ :: v :: _ => some v
  | _ => none

/-- Translation of `ChessParser.should_reject_game` (`src/chess_parser.py`
lines 102-112): `none` models the `ValueError` of `int()` or the `IndexError` of
`split('"')[1]` on a malformed tag line. -/
def should_reject_game (line : List Char) (min_elo : ℤ) : Option Bool :=
  if startsWithL (str "[WhiteElo") line then do
    let v ← quotedField line
    let elo ← pyInt v
    pure (elo < min_elo)
  else if startsWithL (str "[BlackElo") line then do
    let v ← quotedField line
    let elo ← pyInt v
    pure (elo < min_elo)
  else if startsWithL (str "[Termination") line then
    pure (containsSub (str "Abandoned") line)
  else
    pure false

/-- Local derivation state of `process_game_moves` (`src/main.py` lines 41-44) plus the
CSV buffer it appends to. -/
structure EmitState where
  prev_white_clock : Option ℤ
  prev_black_clock : Option ℤ
  prev_eval : ℚ
  buf : List Row
deriving DecidableEq, Repr

/-- Body of the `for match in matches` loop of `process_game_moves` (`src/main.py`
lines 49-116), in source order: clock conversions, time-spent derivations, mate
adjustment and float conversion of the evaluations (the black conversion is skipped
when group 6 is empty, leaving a non-float that raises when used in a black row),
then the white row and conditionally the black row. -/
def processMatchM (initial_time increment : ℤ) (es : EmitState) (m : MoveMatch) :
    Option EmitState := do
  let black_move := pyStrip m.blackMove
  let white_clock_seconds ← clock_to_seconds m.whiteClock
  let black_clock_seconds ← if m.blackClock ≠ [] then clock_to_seconds m.blackClock else pure 0
  let white_time_spent :=
    (match es.prev_white_clock with
      | none => initial_time - white_clock_seconds
      | some p => p - white_clock_seconds) + increment
  let black_time_spent :=
    if m.blackClock ≠ [] then
      (match es.prev_black_clock with
        | none => initial_time - black_clock_seconds
        | some p => p - black_clock_seconds) + increment
    else 0
  let white_eval ←
    if startsWithL (str "#") m.whiteEval then
      pure (if startsWithL (str "#-") m.whiteEval then (-10 : ℚ) else 10)
    else pyFloat m.whiteEval
  let black_eval ←
    if m.blackEval ≠ [] then
      if startsWithL (str "#") m.blackEval then
        pure (some (if startsWithL (str "#-") m.blackEval then (-10 : ℚ) else 10))
      else (pyFloat m.blackEval).map some
    else pure none
  let buf1 := es.buf ++
    [⟨m.moveNum ++ str "w", white_eval, max 0 (es.prev_eval - white_eval),
      white_clock_seconds, white_time_spent⟩]
  let prev_black := if m.blackClock ≠ [] then some black_clock_seconds else es.prev_black_clock
  if black_move ≠ [] then do
    let be ← black_eval
    let buf2 := buf1 ++
      [⟨m.moveNum ++ str "b", be, max 0 (be - white_eval),
        black_clock_seconds, black_time_spent⟩]
    pure ⟨some white_clock_seconds, prev_black, be, buf2⟩
  else
    pure ⟨some white_clock_seconds, prev_black, white_eval, buf1⟩

/-- Translation of `process_game_moves` (`src/main.py` lines 27-116): resolve the time
control from the metadata with default `"180+2"`, then fold every match of every move
line through the emission loop, returning the grown CSV buffer. -/
def process_game_moves (moves : List (List Char)) (csv_buffer : List Row)
    (metadata : GameMeta) : Option (List Row) := do
  let time_control := metadata.timeControl.getD (str "180+2")
  let tc ← parse_time_control time_control
  let es ← List.foldlM
    (fun es line => List.foldlM (processMatchM tc.1 tc.2) es (findAll line))
    ⟨none, none, 0, csv_buffer⟩ moves
  pure es.buf

/-- Per-game state of the driver loop in `stream_decompress_and_process`
(`src/main.py` lines 135-141): the accumulated CSV rows and the four game-tracking
variables. The line-assembly buffer is kept separately, as in the source. -/
structure CoreState where
  csvBuffer : List Row
  gameMoves : List (List Char)
  gameHasClkEval : Bool
  gameMetadata : GameMeta
  reject : Bool
deriving DecidableEq, Repr

/-- Initial driver state (`src/main.py` lines 135-141). -/
def initCore : CoreState := ⟨[], [], false, ⟨none, none, none⟩, false⟩

/-- Translation of the closure `process_finished_game` (`src/main.py` lines 143-146):
the accumulated game is forwarded to `process_game_moves` only when the move list is
non-empty, an eval+clk line was seen, and the game is not rejected; otherwise the CSV
buffer is returned unchanged. -/
def process_finished_game (c : CoreState) : Option (List Row) :=
  if c.gameMoves ≠ [] ∧ c.gameHasClkEval = true ∧ c.reject = false then
    process_game_moves c.gameMoves c.csvBuffer c.gameMetadata
  else
    some c.csvBuffer

/-- Translation of the `for line in lines` body of `stream_decompress_and_process`
(`src/main.py` lines 161-207): strip the line; on `[Event ` finalize the previous game
and reset; on other tag lines record `TimeControl`, `WhiteElo` and `BlackElo` (with the
hard-coded 2000 rating threshold) and the `Termination`/`Abandoned` rejection; ignore
empty lines; collect lines containing both `%clk` and `%eval`. The periodic CSV flush
(lines 204-207) only moves rows to the external writer and is not part of the row
sequence being modelled. `none` models an uncaught exception. -/
def processLine (c : CoreState) (rawLine : List Char) : Option CoreState :=
  let line := pyStrip rawLine
  if startsWithL (str "[Event ") line then do
    let buf ← process_finished_game c
    pure ⟨buf, [], false, ⟨none, none, none⟩, false⟩
  else if startsWithL (str "[") line then
    if startsWithL (str "[TimeControl") line then do
      let v ← quotedField line
      pure {c with gameMetadata := {c.gameMetadata with timeControl := some v}}
    else if startsWithL (str "[WhiteElo") line then do
      let v ← quotedField line
      let white_elo ← pyInt v
      pure {c with reject := (if white_elo < 2000 then true else c.reject),
                   gameMetadata := {c.gameMetadata with whiteElo := some white_elo}}
    else if startsWithL (str "[BlackElo") line then do
      let v ← quotedField line
      let black_elo ← pyInt v
      pure {c with reject := (if black_elo < 2000 then true else c.reject),
                   gameMetadata := {c.gameMetadata with blackElo := some black_elo}}
    else if startsWithL (str "[Termination") line then
      pure (if containsSub (str "Abandoned") line then {c with reject := true} else c)
    else pure c
  else if line = [] then pure c
  else if containsSub (str "%clk") line && containsSub (str "%eval") line then
    pure {c with gameHasClkEval := true, gameMoves := c.gameMoves ++ [line]}
  else pure c

/-- Continuation-byte test for UTF-8 decoding. -/
def contB (b : Nat) : Bool := 0x80 ≤ b && b ≤ 0xBF

/-- Admissible first continuation byte of a three-byte UTF-8 sequence (restricted
ranges after `E0` and `ED`, per RFC 3629, as implemented by CPython). -/
def cont3ok (b b1 : Nat) : Bool :=
  if b == 0xE0 then 0xA0 ≤ b1 && b1 ≤ 0xBF
  else if b == 0xED then 0x80 ≤ b1 && b1 ≤ 0x9F
  else contB b1

/-- Admissible first continuation byte of a four-byte UTF-8 sequence (restricted
ranges after `F0` and `F4`). -/
def cont4ok (b b1 : Nat) : Bool :=
  if b == 0xF0 then 0x90 ≤ b1 && b1 ≤ 0xBF
  else if b == 0xF4 then 0x80 ≤ b1 && b1 ≤ 0x8F
  else contB b1

/-- Unicode replacement character U+FFFD. -/
def repChar : Char := Char.ofNat 0xFFFD

/-- Translation of `chunk.decode('utf-8', errors='replace')` (`src/main.py` line 154):
standard UTF-8 decoding where each maximal subpart of an ill-formed sequence is
replaced by one U+FFFD, matching CPython's `errors='replace'` handler. Each chunk is
decoded independently, so a multi-byte character split across two chunks decodes as
replacement characters. -/
def decodeUtf8Replace : List Nat → List Char
  | [] => []
  | b :: bs =>
    if b < 0x80 then Char.ofNat b :: decodeUtf8Replace bs
    else if 0xC2 ≤ b && b ≤ 0xDF then
      match bs with
      | b1 :: bs1 =>
        if contB b1 then
          Char.ofNat ((b - 0xC0) * 0x40 + (b1 - 0x80)) :: decodeUtf8Replace bs1
        else repChar :: decodeUtf8Replace (b1 :: bs1)
      | [] => [repChar]
    else if 0xE0 ≤ b && b ≤ 0xEF then
      match bs with
      | b1 :: bs1 =>
        if cont3ok b b1 then
          match bs1 with
          | b2 :: bs2 =>
            if contB b2 then
              Char.ofNat ((b - 0xE0) * 0x1000 + (b1 - 0x80) * 0x40 + (b2 - 0x80)) ::
                decodeUtf8Replace bs2
            else repChar :: decodeUtf8Replace (b2 :: bs2)
          | [] => [repChar]
        else repChar :: decodeUtf8Replace (b1 :: bs1)
      | [] => [repChar]
    else if 0xF0 ≤ b && b ≤ 0xF4 then
      match bs with
      | b1 :: bs1 =>
        if cont4ok b b1 then
          match bs1 with
          | b2 :: bs2 =>
            if contB b2 then
              match bs2 with
              | b3 :: bs3 =>
                if contB b3 then
                  Char.ofNat ((b - 0xF0) * 0x40000 + (b1 - 0x80) * 0x1000 +
                      (b2 - 0x80) * 0x40 + (b3 - 0x80)) :: decodeUtf8Replace bs3
                else repChar :: decodeUtf8Replace (b3 :: bs3)
              | [] => [repChar]
            else repChar :: decodeUtf8Replace (b2 :: bs2)
          | [] => [repChar]
        else repChar :: decodeUtf8Replace (b1 :: bs1)
      | [] => [repChar]
    else repChar :: decodeUtf8Replace bs

/-- One pass of the line-assembly step of the driver loop (`src/main.py`
lines 154-161) on already-decoded text: append to the pending buffer, split on
newlines, keep the final fragment as the new buffer, and run every complete line
through `processLine`. -/
def feedText (sb : CoreState × List Char) (t : List Char) :
    Option (CoreState × List Char) :=
  let parts := pySplit '\n' (sb.2 ++ t)
  do
    let c ← List.foldlM processLine sb.1 parts.dropLast
    pure (c, parts.getLastD [])

/-- One iteration of the `while` chunk loop (`src/main.py` lines 150-161): decode the
chunk independently with replacement, then assemble and process lines. -/
def feedChunk (sb : CoreState × List Char) (chunk : List Nat) :
    Option (CoreState × List Char) :=
  feedText sb (decodeUtf8Replace chunk)

/-- Full pipeline of `stream_decompress_and_process` on a byte stream delivered as the
given list of chunks: run the chunk loop from the initial state, finalize the last game
(`src/main.py` line 215) and return the complete row sequence (the concatenation of all
`csv_writer.writerows` batches). The pending line fragment left at end of stream is
discarded, as in the source. `none` models an uncaught exception aborting the run. -/
def runPipeline (chunks : List (List Nat)) : Option (List Row) := do
  let sb ← List.foldlM feedChunk (initCore, []) chunks
  process_finished_game sb.1

/-- Driver state reached after the chunk loop but before the end-of-stream
finalization. -/
def runPipelineCore (chunks : List (List Nat)) : Option CoreState :=
  (List.foldlM feedChunk (initCore, []) chunks).map (fun sb => sb.1)

/-- Byte encoding of an ASCII string. -/
def asciiBytes (s : String) : List Nat := (str s).map Char.toNat

/-- End-to-end input of the scenario in §8 of the specification, delivered as one
ASCII chunk. -/
def e2eInput : List Nat :=
  asciiBytes "[Event \"A\"]\n[WhiteElo \"2200\"]\n[BlackElo \"2100\"]\n[TimeControl \"180+2\"]\n1. e4 \x7b[%eval 0.2][%clk 180]\x7d e5 \x7b[%eval 0.1][%clk 179]\x7d\n[Event \"B\"]\n"

/-- Bytes of a complete game A whose move line carries colon-separated clocks. -/
def gameABytes : List Nat :=
  asciiBytes "[Event \"A\"]\n[TimeControl \"180+2\"]\n1. e4 \x7b[%eval 0.2][%clk 0:03:00]\x7d e5 \x7b[%eval 0.1][%clk 0:02:59]\x7d\n"

/-- Bytes following game A: a game-B boundary line and a sub-threshold WhiteElo tag. -/
def tailBytes : List Nat := asciiBytes "[Event \"B\"]\n[WhiteElo \"1000\"]\n"

/-- Input whose game-B boundary line starts with a NO-BREAK SPACE (UTF-8 `C2 A0`). -/
def nbspBoundaryBytes : List Nat := gameABytes ++ [0xC2, 0xA0] ++ tailBytes

/-- First part of `nbspBoundaryBytes` split in the middle of the `C2 A0` sequence. -/
def nbspSplitA : List Nat := gameABytes ++ [0xC2]

/-- Second part of `nbspBoundaryBytes` split in the middle of the `C2 A0` sequence. -/
def nbspSplitB : List Nat := 0xA0 :: tailBytes

/-- Input with a non-integer WhiteElo tag value followed by a fully well-formed game. -/
def badEloBytes : List Nat :=
  asciiBytes "[Event \"A\"]\n[WhiteElo \"abc\"]\n1. e4 \x7b[%eval 0.2][%clk 0:03:00]\x7d e5 \x7b[%eval 0.1][%clk 0:02:59]\x7d\n"

/-- Input whose single move line contains the substrings `%eval` and `%clk` but never
matches the move pattern. -/
def unmatchedMoveBytes : List Nat := asciiBytes "[Event \"A\"]\n1. e4 %eval 1 %clk 2\n"

/-- Well-formed move line with colon-separated clock annotations. -/
def colonClockLine : List Char :=
  str "1. e4 \x7b[%eval 0.2][%clk 0:03:00]\x7d e5 \x7b[%eval 0.1][%clk 0:02:59]\x7d"

/-- Move line holding an annotated white half-move and no second annotation block. -/
def loneWhiteLine : List Char := str "1. e4 \x7b[%eval 0.2][%clk 0:03:00]\x7d"

/-- Move line holding two annotation blocks but an empty black-move text. -/
def emptyBlackLine : List Char :=
  str "1. e4 \x7b[%eval 0.2][%clk 0:03:00]\x7d \x7b[%eval 0.3][%clk 0:02:00]\x7d"

/-- Move line whose white clock annotation has a negative minutes part. -/
def negClockLine : List Char :=
  str "1. e4 \x7b[%eval 0.2][%clk -1:30]\x7d e5 \x7b[%eval 0.1][%clk 0:02:59]\x7d"

/-- Accumulated game state holding `negClockLine`, ready for row emission. -/
def negClockState : GameState :=
  ⟨[negClockLine], ⟨some (str "180+2"), none, none⟩, true, false, none, none, 0⟩

/-- Final game state after `process_moves` on `negClockState`. -/
def negClockStateAfter : GameState :=
  ⟨[negClockLine], ⟨some (str "180+2"), none, none⟩, true, false,
    some (-30), some 179, 0.1⟩

/-- Accumulated game state with a collected move line, empty metadata and no
rejection. -/
def zeroTCState : GameState :=
  ⟨[colonClockLine], ⟨none, none, none⟩, true, false, none, none, 0⟩

/-- C1. The specified end-to-end scenario does not produce the claimed rows: the clock
annotations `180` and `179` contain no colon, so `clock_to_seconds` maps them to 0 and
the emitted rows carry TimeLeft 0 and TimeSpent 182, not TimeLeft 180/179 and
TimeSpent 2/3. -/
theorem C1_counterexample :
    runPipeline [e2eInput] =
      some [⟨str "1w", 0.2, 0, 0, 182⟩, ⟨str "1b", 0.1, 0, 0, 182⟩] ∧
    runPipeline [e2eInput] ≠
      some [⟨str "1w", 0.2, 0, 180, 2⟩, ⟨str "1b", 0.1, 0, 179, 3⟩] := by decide

/-- C1 (amended). For the input game of the §8 scenario the pipeline emits exactly two
rows for game A, `("1w", 0.2, 0.0, 0, 182)` then `("1b", 0.1, 0.0, 0, 182)`, with no
rows of game B interleaved: the colon-less clock strings `180` and `179` convert to 0
seconds, so each side's time spent is (180 − 0) + 2 = 182 with no clamping. -/
theorem C1_amended :
    runPipeline [e2eInput] =
      some [⟨str "1w", 0.2, 0, 0, 182⟩, ⟨str "1b", 0.1, 0, 0, 182⟩] := by decide

/-- C2. A game whose collected move list is non-empty, whose annotated-move flag is
set and which is not rejected can still emit zero rows: a line containing the
substrings `%eval` and `%clk` sets the flag and is collected, yet never matches the
move pattern, so the "rows are emitted if and only if" direction from state to rows
fails. -/
theorem C2_counterexample :
    runPipelineCore [unmatchedMoveBytes] =
      some ⟨[], [str "1. e4 %eval 1 %clk 2"], true, ⟨none, none, none⟩, false⟩ ∧
    runPipeline [unmatchedMoveBytes] = some [] := by decide

/-- C2 (amended). Rows may be emitted for a finalized game only if its move list is
non-empty, an eval+clk line was seen and the game is not rejected: whenever this
conjunction fails the finalization returns the CSV buffer unchanged and raises no
error; when it holds the game is forwarded to the row emitter, which can still yield
zero rows if no collected line matches the move pattern. -/
theorem C2_amended (c : CoreState)
    (h : ¬(c.gameMoves ≠ [] ∧ c.gameHasClkEval = true ∧ c.reject = false)) :
    process_finished_game c = some c.csvBuffer := by
  unfold process_finished_game
  exact if_neg h

/-- C2 (witness). A rejected game with collected annotated moves emits zero rows. -/
theorem C2_witness :
    process_finished_game ⟨[], [colonClockLine], true, ⟨none, none, none⟩, true⟩ =
      some [] :=
  C2_amended ⟨[], [colonClockLine], true, ⟨none, none, none⟩, true⟩ (by decide)

/-- C4. `parse_eval` returns the sentinel -10 on every string beginning with `#-`,
10 on every other string beginning with `#`, and the decimal float value otherwise;
in particular `#-3 ↦ -10`, `#5 ↦ 10`, `0.37 ↦ 0.37`. -/
theorem C4_parse_eval :
    (∀ s, startsWithL (str "#-") s = true → parse_eval s = some (-10)) ∧
    (∀ s, startsWithL (str "#") s = true → startsWithL (str "#-") s = false →
      parse_eval s = some 10) ∧
    (∀ s, startsWithL (str "#") s = false → parse_eval s = pyFloat s) ∧
    parse_eval (str "#-3") = some (-10) ∧
    parse_eval (str "#5") = some 10 ∧
    parse_eval (str "0.37") = some (37 / 100) := by
  refine ⟨?_, ?_, ?_, by decide, by decide, by decide⟩
  · intro s h
    have hp : str "#-" <+: s := by
      simpa [startsWithL, List.isPrefixOf_iff_prefix] using h
    obtain ⟨t, rfl⟩ := hp
    simp [parse_eval, startsWithL, str, List.isPrefixOf]
  · intro s h1 h2
    simp [parse_eval, h1, h2]
  · intro s h
    simp [parse_eval, h]

/-- C4 (witness). Instantiation of the universally quantified clauses at `#-3`, `#5`
and `0.37`. -/
theorem C4_witness :
    parse_eval (str "#-99") = some (-10) ∧ parse_eval (str "#7") = some 10 ∧
    parse_eval (str "2.5") = pyFloat (str "2.5") :=
  ⟨C4_parse_eval.1 (str "#-99") (by decide),
   C4_parse_eval.2.1 (str "#7") (by decide) (by decide),
   C4_parse_eval.2.2.1 (str "2.5") (by decide)⟩

/-- C5. `clock_to_seconds` does crash on some malformed clock strings: a two-part
string with non-numeric parts raises `ValueError` from `int()`, so the conversion is
not total on malformed input. -/
theorem C5_counterexample : clock_to_seconds (str "a:b") = none := by decide

/-- C5 (amended). `clock_to_seconds` returns minutes*60+seconds for two colon-parts
and hours*3600+minutes*60+seconds for three, `1:02:03 ↦ 3723` and `5:30 ↦ 330`; any
other number of parts yields 0 without error and without examining the content, and
the conversion succeeds whenever every part parses as an integer — but a 2- or 3-part
string with a non-integer part raises (`none`) rather than returning 0. -/
theorem C5_amended :
    clock_to_seconds (str "1:02:03") = some 3723 ∧
    clock_to_seconds (str "5:30") = some 330 ∧
    (∀ s, (pySplit ':' s).length ≠ 2 → (pySplit ':' s).length ≠ 3 →
      clock_to_seconds s = some 0) ∧
    (∀ s, (∀ p ∈ pySplit ':' s, (pyInt p).isSome) → (clock_to_seconds s).isSome) := by
  refine ⟨by decide, by decide, ?_, ?_⟩
  · intro s h2 h3
    unfold clock_to_seconds
    rcases hs : pySplit ':' s with _ | ⟨a, _ | ⟨b, _ | ⟨c, _ | d⟩⟩⟩ <;>
      simp_all [hs]
  · intro s hall
    unfold clock_to_seconds
    rcases hs : pySplit ':' s with _ | ⟨a, _ | ⟨b, _ | ⟨c, _ | d⟩⟩⟩ <;> simp_all [hs]
    · obtain ⟨m, hm⟩ := Option.isSome_iff_exists.mp hall.1
      obtain ⟨n, hn⟩ := Option.isSome_iff_exists.mp hall.2
      simp [hm, hn]
    · obtain ⟨m, hm⟩ := Option.isSome_iff_exists.mp hall.1
      obtain ⟨n, hn⟩ := Option.isSome_iff_exists.mp hall.2.1
      obtain ⟨k, hk⟩ := Option.isSome_iff_exists.mp hall.2.2
      simp [hm, hn, hk]

/-- C5 (witness). A one-part malformed clock string converts to 0 via the amended
theorem's third clause. -/
theorem C5_witness : clock_to_seconds (str "bogus") = some 0 :=
  C5_amended.2.2.1 (str "bogus") (by decide) (by decide)

/-- C6. A WhiteElo tag whose quoted value is not an integer crashes the pipeline: the
`int()` conversion raises an uncaught `ValueError`, the run aborts and the following
fully well-formed game contributes nothing, so processing of the stream does not
continue. -/
theorem C6_counterexample : runPipeline [badEloBytes] = none := by decide

/-- C6 (amended). Processing a WhiteElo tag line whose quoted value is not an integer
raises an uncaught conversion error that aborts stream processing, whatever the driver
state: no rejection and no default value is applied. -/
theorem C6_amended (c : CoreState) :
    processLine c (str "[WhiteElo \"abc\"]") = none := rfl

/-- C7. The row emitter of the streaming pipeline (`process_game_moves` in
`src/main.py`) substitutes `"180+2"`, not `"0+0"`, when the metadata has no
TimeControl tag: on a game with 180-second clocks it emits time spent 2 and 3, not
the −180 and −179 that a zero/zero time control would give. -/
theorem C7_counterexample :
    process_game_moves [colonClockLine] [] ⟨none, none, none⟩ =
      some [⟨str "1w", 0.2, 0, 180, 2⟩, ⟨str "1b", 0.1, 0, 179, 3⟩] ∧
    process_game_moves [colonClockLine] [] ⟨none, none, none⟩ ≠
      some [⟨str "1w", 0.2, 0, 180, -180⟩, ⟨str "1b", 0.1, 0, 179, -179⟩] := by decide

/-- C7 (amended). It is `ChessParser.process_moves` that derives time spent from the
literal substitute string `"0+0"` when the metadata has no TimeControl tag: on a
non-discarded game it runs the emission loop with the time control parsed from
`"0+0"`; the streaming pipeline's `process_game_moves` uses `"180+2"` instead. -/
theorem C7_amended (st : GameState) (buf : List Row) (e : ℤ)
    (h : st.metadata.timeControl = none) (hm : st.moves ≠ [])
    (hc : st.has_clk_eval = true) (hr : st.reject = false) :
    process_moves st buf e = (do
      let tc ← parse_time_control (str "0+0")
      List.foldlM (processMovesLineC tc.1 tc.2) (st, buf) st.moves) := by
  have hg : ¬(st.moves = [] ∨ st.has_clk_eval = false ∨ st.reject = true) := by
    simp [hm, hc, hr]
  unfold process_moves
  rw [if_neg hg, h]
  rfl

/-- C7 (witness). Instantiation of the amended theorem on a concrete game without a
TimeControl tag. -/
theorem C7_witness :
    process_moves zeroTCState [] 0 = (do
      let tc ← parse_time_control (str "0+0")
      List.foldlM (processMovesLineC tc.1 tc.2) (zeroTCState, []) zeroTCState.moves) :=
  C7_amended zeroTCState [] 0 rfl (by decide) rfl rfl

/-- C8. A move-line unit with a move number and a white move annotated with both eval
and clk, but no second annotation block, yields no tuple from the move extractor and
no white row from the emitter: the pattern requires the black `{[%eval ...][%clk ...]}`
block. -/
theorem C8_counterexample :
    findAll loneWhiteLine = [] ∧
    process_game_moves [loneWhiteLine] [] ⟨some (str "180+2"), none, none⟩ =
      some [] := by decide

/-- C8 (amended). The move extractor yields a tuple for a unit only when both
annotation blocks are present; the black move may be absent only as empty captured
move text with its annotation block still present, in which case the tuple carries the
empty black move and the emitter produces the white row alone. -/
theorem C8_amended :
    findAll emptyBlackLine =
      [⟨str "1", str "e4 ", str "0.2", str "0:03:00", str "", str "0.3",
        str "0:02:00"⟩] ∧
    process_game_moves [emptyBlackLine] [] ⟨some (str "180+2"), none, none⟩ =
      some [⟨str "1w", 0.2, 0, 180, 2⟩] := by decide

/-- C10. `ChessParser.process_moves` never consults its `min_elo` parameter: two calls
identical except for that argument return identical CSV buffers and identical final
game states. -/
theorem C10_min_elo_unused (state : GameState) (csv_buffer : List Row) (e1 e2 : ℤ) :
    process_moves state csv_buffer e1 = process_moves state csv_buffer e2 := rfl

/-- Rows appended by a monadic fold step all satisfy the centipawn-loss bound provided
every individual step only appends such rows. -/
theorem foldlM_loss_inv {α : Type} (f : GameState × List Row → α → Option (GameState × List Row))
    (hf : ∀ sb a out, f sb a = some out → ∀ r ∈ out.2, r ∈ sb.2 ∨ 0 ≤ r.loss) :
    ∀ (l : List α) (sb : GameState × List Row) (out : GameState × List Row),
      List.foldlM f sb l = some out → ∀ r ∈ out.2, r ∈ sb.2 ∨ 0 ≤ r.loss := by
  intro l
  induction l with
  | nil =>
    intro sb out h r hr
    simp only [List.foldlM_nil] at h
    cases h
    exact Or.inl hr
  | cons a t ih =>
    intro sb out h r hr
    rw [List.foldlM_cons] at h
    cases hfa : f sb a with
    | none => rw [hfa] at h; simp at h
    | some mid =>
      rw [hfa] at h
      have h' : List.foldlM f mid t = some out := by simpa using h
      rcases ih mid out h' r hr with hmem | hok
      · exact hf sb a mid hfa r hmem
      · exact Or.inr hok

/-- Rows appended by one iteration of the match loop of `ChessParser.process_moves`
carry a centipawn loss of the form `max 0 _` and are therefore non-negative. -/
theorem processMatchC_loss_inv (i inc : ℤ) :
    ∀ (sb : GameState × List Row) (m : MoveMatch) (out : GameState × List Row),
      processMatchC i inc sb m = some out → ∀ r ∈ out.2, r ∈ sb.2 ∨ 0 ≤ r.loss := by
  intro sb m out h r hr
  unfold processMatchC at h
  rcases h1 : clock_to_seconds m.whiteClock with _ | wcs <;> rw [h1] at h
  · simp at h
  rcases h2 : parse_eval m.whiteEval with _ | wev <;> rw [h2] at h
  · simp at h
  simp only [Option.bind_eq_bind, Option.some_bind] at h
  by_cases hb : m.blackMove ≠ []
  · rw [if_pos hb] at h
    rcases h3 : clock_to_seconds m.blackClock with _ | bcs <;> rw [h3] at h
    · simp at h
    rcases h4 : parse_eval m.blackEval with _ | bev <;> rw [h4] at h
    · simp at h
    simp only [Option.bind_eq_bind, Option.some_bind, Option.pure_def,
      Option.some_inj] at h
    subst h
    simp only [List.append_assoc, List.mem_append, List.mem_singleton] at hr
    rcases hr with hmem | hw | hbk
    · exact Or.inl hmem
    · subst hw; exact Or.inr (le_max_left 0 _)
    · subst hbk; exact Or.inr (le_max_left 0 _)
  · rw [if_neg hb] at h
    simp only [Option.pure_def, Option.some_inj] at h
    subst h
    simp only [List.mem_append, List.mem_singleton] at hr
    rcases hr with hmem | hw
    · exact Or.inl hmem
    · subst hw; exact Or.inr (le_max_left 0 _)

/-- C9 (amended). Every row emitted by `ChessParser.process_moves` has a non-negative
centipawn loss (the source computes it as `max(0, ...)`); the TimeLeft column carries
no such guarantee, as the counterexample shows. -/
theorem C9_amended (st : GameState) (buf : List Row) (e : ℤ)
    (out : GameState × List Row) (h : process_moves st buf e = some out) :
    ∀ r ∈ out.2, r ∈ buf ∨ 0 ≤ r.loss := by
  unfold process_moves at h
  split at h
  · cases h
    intro r hr
    exact Or.inl hr
  · rcases htc : parse_time_control (st.metadata.timeControl.getD (str "0+0")) with _ | tc <;>
      rw [htc] at h
    · simp at h
    · simp only [Option.bind_eq_bind, Option.some_bind] at h
      refine foldlM_loss_inv _ ?_ st.moves (st, buf) out h
      intro sb a o ha
      exact foldlM_loss_inv _ (processMatchC_loss_inv tc.1 tc.2) (findAll a) sb o ha

/-- C9. An emitted row can carry a negative TimeLeft: a clock annotation `-1:30`
converts to −30 seconds and is emitted verbatim, refuting non-negativity of the
TimeLeft column (the centipawn-loss column of the same run is 0 ≥ 0). -/
theorem C9_counterexample :
    (process_moves negClockState [] 2000).map (fun p => p.2) =
      some [⟨str "1w", 0.2, 0, -30, 212⟩, ⟨str "1b", 0.1, 0, 179, 3⟩] ∧
    ((-30 : ℤ) < 0) := by decide

/-- C9 (witness). The amended theorem applied to the concrete negative-clock run. -/
theorem C9_witness : 0 ≤ (Row.mk (str "1w") 0.2 0 (-30) 212).loss :=
  (C9_amended negClockState [] 2000
      (negClockStateAfter, [⟨str "1w", 0.2, 0, -30, 212⟩, ⟨str "1b", 0.1, 0, 179, 3⟩])
      (by decide) (Row.mk (str "1w") 0.2 0 (-30) 212) (by decide)).resolve_left
    (by simp)

/-- Python `split` never returns an empty list of parts. -/
theorem pySplit_ne_nil (sep : Char) : ∀ cs, pySplit sep cs ≠ [] := by
  intro cs
  induction cs with
  | nil => simp [pySplit]
  | cons c rest ih =>
    rcases hr : pySplit sep rest with _ | ⟨g, gs⟩
    · exact absurd hr ih
    · simp only [pySplit, hr]
      split <;> simp

/-- No part produced by Python `split` contains the separator. -/
theorem pySplit_sep_not_mem (sep : Char) :
    ∀ cs, ∀ g ∈ pySplit sep cs, sep ∉ g := by
  intro cs
  induction cs with
  | nil => intro g hg; simp [pySplit] at hg; simp [hg]
  | cons c rest ih =>
    intro g hg
    rcases hr : pySplit sep rest with _ | ⟨g0, gs⟩
    · exact absurd hr (pySplit_ne_nil sep rest)
    · simp only [pySplit, hr] at hg
      by_cases hc : c = sep
      · rw [if_pos hc] at hg
        rcases List.mem_cons.mp hg with hg | hg
        · simp [hg]
        · exact ih g (by rw [hr]; exact hg)
      · rw [if_neg hc] at hg
        rcases List.mem_cons.mp hg with hg | hg
        · subst hg
          intro hmem
          rcases List.mem_cons.mp hmem with h1 | h1
          · exact hc h1.symm
          · exact ih g0 (by rw [hr]; exact List.mem_cons_self g0 gs) h1
        · exact ih g (by rw [hr]; exact List.mem_cons_of_mem g0 hg)

/-- Splitting a concatenation whose left part is separator-free prepends the left part
to the first part of the right split. -/
theorem pySplit_append_left (sep : Char) :
    ∀ (a b : List Char) (h0 : List Char) (t : List (List Char)),
      (∀ c ∈ a, c ≠ sep) → pySplit sep b = h0 :: t →
      pySplit sep (a ++ b) = (a ++ h0) :: t := by
  intro a
  induction a with
  | nil => intro b h0 t _ hb; simpa using hb
  | cons c a' ih =>
    intro b h0 t ha hb
    have hc : c ≠ sep := ha c (List.mem_cons_self c a')
    have ih' := ih b h0 t (fun x hx => ha x (List.mem_cons_of_mem c hx)) hb
    rw [List.cons_append]
    simp only [pySplit, List.append_eq, ih', if_neg hc]
    simp

/-- Splitting a string that starts with the separator yields a leading empty part. -/
theorem pySplit_cons_sep (sep : Char) (t : List Char) :
    pySplit sep (sep :: t) = [] :: pySplit sep t := by
  rcases hr : pySplit sep t with _ | ⟨g, gs⟩
  · exact absurd hr (pySplit_ne_nil sep t)
  · simp [pySplit, hr]

/-- The last element of a non-empty list with a default is a member. -/
theorem getLastD_mem {α : Type} : ∀ (l : List α) (d : α), l ≠ [] → l.getLastD d ∈ l := by
  intro l
  induction l with
  | nil => intro d h; exact absurd rfl h
  | cons a t ih =>
    intro d _
    rcases t with _ | ⟨b, t'⟩
    · simp
    · rw [List.getLastD_cons]
      exact List.mem_cons_of_mem a (ih a (by simp))

/-- Feeding the empty text to the line assembler with a newline-free pending buffer is
the identity. -/
theorem feedText_nil (c : CoreState) (buf : List Char)
    (hb : ∀ ch ∈ buf, ch ≠ '\n') : feedText (c, buf) [] = some (c, buf) := by
  have hp : pySplit '\n' buf = [buf] := by
    simpa using pySplit_append_left '\n' buf [] [] [] hb rfl
  simp [feedText, hp]

/-- One-character step of the line assembler with a newline-free pending buffer:
a newline flushes the buffer through `processLine`, any other character is appended. -/
theorem feedText_cons (c : CoreState) (buf : List Char) (x : Char) (t : List Char)
    (hb : ∀ ch ∈ buf, ch ≠ '\n') :
    feedText (c, buf) (x :: t) =
      if x = '\n' then (processLine c buf).bind (fun c' => feedText (c', []) t)
      else feedText (c, buf ++ [x]) t := by
  by_cases hx : x = '\n'
  · subst hx
    rw [if_pos rfl]
    rcases hq : pySplit '\n' t with _ | ⟨h0, t0⟩
    · exact absurd hq (pySplit_ne_nil '\n' t)
    have hsub : pySplit '\n' ('\n' :: t) = [] :: h0 :: t0 := by
      rw [pySplit_cons_sep '\n' t, hq]
    have hp : pySplit '\n' (buf ++ '\n' :: t) = (buf ++ []) :: h0 :: t0 :=
      pySplit_append_left '\n' buf ('\n' :: t) [] (h0 :: t0) hb hsub
    simp only [feedText, hp, List.append_nil, List.nil_append, hq]
    rw [List.dropLast_cons₂, List.foldlM_cons]
    cases hpl : processLine c buf with
    | none => simp
    | some c' =>
      simp only [Option.bind_eq_bind, Option.some_bind]
      simp [List.getLastD_cons]
  · rw [if_neg hx]
    have hsh : buf ++ x :: t = (buf ++ [x]) ++ t := by
      rw [List.append_cons]
    simp only [feedText, hsh]

/-- The pending buffer left by a successful feed never contains a newline. -/
theorem feedText_nl_free (sb : CoreState × List Char) (t : List Char)
    (out : CoreState × List Char) (h : feedText sb t = some out) :
    ∀ ch ∈ out.2, ch ≠ '\n' := by
  simp only [feedText] at h
  rcases hf : List.foldlM processLine sb.1 (pySplit '\n' (sb.2 ++ t)).dropLast with _ | c1 <;>
    rw [hf] at h
  · simp at h
  · simp only [Option.bind_eq_bind, Option.some_bind, Option.pure_def,
      Option.some_inj] at h
    subst h
    intro ch hch
    have hmem : (pySplit '\n' (sb.2 ++ t)).getLastD [] ∈ pySplit '\n' (sb.2 ++ t) :=
      getLastD_mem _ [] (pySplit_ne_nil '\n' (sb.2 ++ t))
    intro hnl
    exact pySplit_sep_not_mem '\n' (sb.2 ++ t) _ hmem (hnl ▸ hch)

/-- Feeding a concatenation equals feeding the parts in sequence, for a newline-free
pending buffer. -/
theorem feedText_append :
    ∀ (t1 : List Char) (c : CoreState) (buf : List Char),
      (∀ ch ∈ buf, ch ≠ '\n') → ∀ (t2 : List Char),
      feedText (c, buf) (t1 ++ t2) =
        (feedText (c, buf) t1).bind (fun sb => feedText sb t2) := by
  intro t1
  induction t1 with
  | nil =>
    intro c buf hb t2
    rw [List.nil_append, feedText_nil c buf hb]
    rfl
  | cons x t1' ih =>
    intro c buf hb t2
    rw [List.cons_append, feedText_cons c buf x (t1' ++ t2) hb,
      feedText_cons c buf x t1' hb]
    by_cases hx : x = '\n'
    · rw [if_pos hx, if_pos hx]
      cases hpl : processLine c buf with
      | none => simp
      | some c' =>
        simp only [Option.some_bind]
        exact ih c' [] (by simp) t2
    · rw [if_neg hx, if_neg hx]
      exact ih c (buf ++ [x]) (by
        intro ch hch
        rcases List.mem_append.mp hch with h1 | h1
        · exact hb ch h1
        · simp at h1
          subst h1
          exact hx) t2

/-- Unfolding of the decoder on an ASCII head byte. -/
theorem decode_cons_ascii (x : Nat) (h : x < 128) (l : List Nat) :
    decodeUtf8Replace (x :: l) = Char.ofNat x :: decodeUtf8Replace l := by
  rw [decodeUtf8Replace.eq_def]
  simp [h]

/-- Decoding distributes over concatenation when the left part is pure ASCII: every
ASCII byte decodes independently of what follows. -/
theorem decodeUtf8Replace_ascii_append :
    ∀ (a b : List Nat), (∀ x ∈ a, x < 128) →
      decodeUtf8Replace (a ++ b) = decodeUtf8Replace a ++ decodeUtf8Replace b := by
  intro a
  induction a with
  | nil => intro b _; rfl
  | cons x a' ih =>
    intro b h
    have hx : x < 128 := h x (List.mem_cons_self x a')
    rw [List.cons_append, decode_cons_ascii x hx, decode_cons_ascii x hx,
      ih b (fun y hy => h y (List.mem_cons_of_mem x hy)), List.cons_append]

/-- The chunk loop on an all-ASCII stream equals one combined feed of the decoded
concatenation, for a newline-free pending buffer. -/
theorem foldlM_feedChunk_flatten :
    ∀ (chunks : List (List Nat)) (c : CoreState) (buf : List Char),
      (∀ ch ∈ buf, ch ≠ '\n') → (∀ cs ∈ chunks, ∀ b ∈ cs, b < 128) →
      List.foldlM feedChunk (c, buf) chunks =
        feedText (c, buf) (decodeUtf8Replace chunks.flatten) := by
  intro chunks
  induction chunks with
  | nil =>
    intro c buf hb _
    rw [List.foldlM_nil, List.flatten_nil,
      show decodeUtf8Replace [] = [] from rfl, feedText_nil c buf hb]
    rfl
  | cons ch rest ih =>
    intro c buf hb ha
    rw [List.foldlM_cons, List.flatten_cons,
      decodeUtf8Replace_ascii_append ch rest.flatten (ha ch (List.mem_cons_self ch rest)),
      feedText_append (decodeUtf8Replace ch) c buf hb]
    have hfc : feedChunk (c, buf) ch = feedText (c, buf) (decodeUtf8Replace ch) := rfl
    rw [hfc]
    cases hf : feedText (c, buf) (decodeUtf8Replace ch) with
    | none => simp
    | some sb =>
      obtain ⟨c', buf'⟩ := sb
      simp only [Option.bind_eq_bind, Option.some_bind, Option.bind]
      exact ih c' buf' (feedText_nl_free (c, buf) (decodeUtf8Replace ch) (c', buf') hf)
        (fun cs hcs => ha cs (List.mem_cons_of_mem ch hcs))

/-- C3. Chunk-boundary invariance fails on general byte sequences: the same bytes fed
as one chunk and fed split in the middle of the two-byte encoding of a NO-BREAK SPACE
produce different row sequences, because each chunk is decoded independently and the
split turns the character into two replacement characters, which un-recognizes the
following `[Event ` boundary line. -/
theorem C3_counterexample :
    nbspBoundaryBytes = nbspSplitA ++ nbspSplitB ∧
    runPipeline [nbspBoundaryBytes] ≠ runPipeline [nbspSplitA, nbspSplitB] := by decide

/-- C3 (amended). Chunk-boundary invariance holds for byte streams in which no chunk
boundary can fall inside a multi-byte character — in particular for every all-ASCII
input: feeding the bytes as one chunk produces exactly the row sequence of feeding
them split at arbitrary offsets into any number of chunks. -/
theorem C3_amended (chunks : List (List Nat))
    (h : ∀ cs ∈ chunks, ∀ b ∈ cs, b < 128) :
    runPipeline chunks = runPipeline [chunks.flatten] := by
  unfold runPipeline
  rw [foldlM_feedChunk_flatten chunks initCore [] (by simp) h]
  have hs : List.foldlM feedChunk (initCore, ([] : List Char)) [chunks.flatten] =
      feedChunk (initCore, []) chunks.flatten := by
    rw [List.foldlM_cons]
    cases feedChunk (initCore, ([] : List Char)) chunks.flatten <;> rfl
  rw [hs]
  rfl

/-- C3 (witness). The amended invariance applied to a concrete ASCII split of an
input line. -/
theorem C3_witness :
    runPipeline [asciiBytes "[Event \"W\"]\n1. e4 ", asciiBytes "x %eval y\n"] =
      runPipeline
        [List.flatten [asciiBytes "[Event \"W\"]\n1. e4 ", asciiBytes "x %eval y\n"]] :=
  C3_amended [asciiBytes "[Event \"W\"]\n1. e4 ", asciiBytes "x %eval y\n"] (by decide)
